import Mathlib

/-!
Verification development for the mbvlgranger multi-band variable-lag
Granger causality engine.  The repository snapshot contains only the
callers of the engine (usage examples and packaging tests); the engine
package itself is absent.  The definitions below therefore model the
missing core from the specification text, component by component, and
the theorems settle the specified properties against that model.
-/

/-- Frequency band with lower and upper edge in Hz. -/
structure FrequencyBand where
  low : ℚ
  high : ℚ
deriving DecidableEq

/-- Error taxonomy of the engine, from the specification (section 7). -/
inductive BandError where
  | invalidBand
  | insufficientSamples
  | alignmentFailed
  | degenerateModel
deriving DecidableEq

/-- Modelled from the spec: band validation performed by the Band
Decomposer, which is missing from the repository snapshot.  The
specification says the decomposer fails with InvalidBandError when
low >= high or when high exceeds the Nyquist frequency fs / 2, and that
a band whose upper edge equals fs / 2 exactly is accepted. -/
def validateBand (fs : ℚ) (b : FrequencyBand) : Except BandError Unit :=
  if b.high ≤ b.low then .error .invalidBand
  else if fs / 2 < b.high then .error .invalidBand
  else .ok ()

/-- Minimum of the alignment costs over candidate lags 0, 1, ..., n. -/
def minCostUpTo (cost : ℕ → ℚ) : ℕ → ℚ
  | 0 => cost 0
  | n + 1 => min (minCostUpTo cost n) (cost (n + 1))

/-- Linear scan returning the first index at or after `start`, within
`fuel` further steps, satisfying the predicate; returns the last index
inspected plus one when none does. -/
def scanLag (P : ℕ → Bool) : ℕ → ℕ → ℕ
  | 0, start => start
  | fuel + 1, start => if P start then start else scanLag P fuel (start + 1)

/-- Modelled from the spec: the lag search of the Variable-Lag Aligner,
which is missing from the repository snapshot.  For each candidate lag
in [0, max_lag] an alignment cost is computed; the aligner returns the
smallest candidate lag whose cost is indistinguishable (within the fixed
numerical tolerance `tol`) from the minimal cost over all candidates,
implementing the parsimony tie-break of section 4.2. -/
def findBestLag (cost : ℕ → ℚ) (maxLag : ℕ) (tol : ℚ) : ℕ :=
  scanLag (fun τ => decide (cost τ ≤ minCostUpTo cost maxLag + tol)) maxLag 0

/-- Values stored in the result dictionaries returned by the engine. -/
inductive RVal where
  | prop : Prop → RVal
  | bool : Bool → RVal
  | rat : ℚ → RVal
  | nat : ℕ → RVal
  | str : String → RVal
  | real : ℝ → RVal
  | rows : List (List (String × RVal)) → RVal
  | dict : List (String × RVal) → RVal

/-- Numerical quantities produced by the fitting stage of the Causality
Tester for one target and driver pair: the alignment cost profile over
candidate lags, the F-test p-value of the nested model comparison, and
the Bayesian Information Criterion of the restricted and of the
unrestricted model. -/
structure VLInputs where
  cost : ℕ → ℚ
  pVal : ℚ
  bicR : ℚ
  bicU : ℚ

/-- Modelled from the spec: the single-pair entry point
VLGrangerCausality.analyze_causality of the missing engine.  On the
success path it runs the variable-lag search, computes the BIC
difference ratio (BIC_restricted - BIC_unrestricted) / |BIC_restricted|,
decides causality as p_value < alpha together with a positive ratio, and
returns the result dictionary exercised by the integrity test script. -/
def analyze_causality (alpha : ℚ) (maxLag : ℕ) (tol : ℚ) (inp : VLInputs) :
    List (String × RVal) :=
  let lag := findBestLag inp.cost maxLag tol
  let ratio := (inp.bicR - inp.bicU) / |inp.bicR|
  [("XgCsY", .bool (decide (inp.pVal < alpha) && decide (0 < ratio))),
   ("p_val", .rat inp.pVal),
   ("BIC_diff_ratio", .rat ratio),
   ("following_result", .dict [("opt_delay", .nat lag)])]

/-- Per-band outcome record assembled by the Band Orchestrator. -/
structure BandPairResult where
  interval : String
  causality : Bool
  optLag : ℕ
  bicRatio : ℚ
  pValue : ℚ
  significant : Bool
  diagnostic : Option String
deriving DecidableEq

/-- Statistics of one band on which decomposition, alignment and model
fitting all succeeded. -/
structure BandStats where
  optLag : ℕ
  bicRatio : ℚ
  pVal : ℚ
deriving DecidableEq

/-- Diagnostic marker naming the failure recorded for a band. -/
def errorTag : BandError → String
  | .invalidBand => "invalid_band"
  | .insufficientSamples => "insufficient_samples"
  | .alignmentFailed => "alignment_failed"
  | .degenerateModel => "degenerate_model"

/-- Downgraded record for a band whose decomposition, alignment or model
fit failed: no causality, p-value 1.0 and a diagnostic marker. -/
def failedBandResult (name : String) (e : BandError) : BandPairResult :=
  { interval := name, causality := false, optLag := 0, bicRatio := 0,
    pValue := 1, significant := false, diagnostic := some (errorTag e) }

/-- Modelled from the spec: per-band assembly in the Band Orchestrator,
which is missing from the repository snapshot.  A successful band yields
a record carrying the detected lag, BIC difference ratio and p-value,
the significance flag p < alpha, and the causality decision of the
tester; a failed band is downgraded to a non-significant record with
p-value 1.0 and a diagnostic marker instead of aborting the analysis. -/
def runBand (alpha : ℚ) (name : String) (outcome : Except BandError BandStats) :
    BandPairResult :=
  match outcome with
  | .ok s =>
      { interval := name,
        causality := decide (s.pVal < alpha) && decide (0 < s.bicRatio),
        optLag := s.optLag, bicRatio := s.bicRatio, pValue := s.pVal,
        significant := decide (s.pVal < alpha), diagnostic := none }
  | .error e => failedBandResult name e

/-- Modelled from the spec: the Band Orchestrator loop of the missing
engine, producing one record per configured band and preserving the
caller band order. -/
def orchestrate (alpha : ℚ) (bands : List (String × Except BandError BandStats)) :
    List BandPairResult :=
  bands.map (fun nb => runBand alpha nb.1 nb.2)

/-- Fisher combined statistic: -2 times the sum of the natural
logarithms of the per-band p-values. -/
noncomputable def fisherStat (ps : List ℝ) : ℝ :=
  -2 * (ps.map Real.log).sum

/-- Survival function of the chi squared distribution with 2 * m degrees
of freedom, in closed form for even degrees of freedom. -/
noncomputable def chi2SFeven (m : ℕ) (x : ℝ) : ℝ :=
  Real.exp (-(x / 2)) * ∑ k ∈ Finset.range m, (x / 2) ^ k / (Nat.factorial k)

/-- Modelled from the spec: the Fisher combined p-value of the missing
Combiner, written in the closed form the engine evaluates for even
degrees of freedom: the product of the p-values times the partial
exponential sum of half the Fisher statistic. -/
noncomputable def fisherP (ps : List ℝ) : ℝ :=
  ps.prod * ∑ k ∈ Finset.range ps.length,
    (-(ps.map Real.log).sum) ^ k / (Nat.factorial k)

/-- Modelled from the spec: the Bonferroni combined p-value of the
missing Combiner, min(1, N times the smallest p-value). -/
noncomputable def bonferroniP (ps : List ℝ) : ℝ :=
  min 1 ((ps.length : ℝ) * ps.foldr min 1)

/-- Combination methods of the Combiner settled by this development. -/
inductive CombMethod where
  | fisher
  | bonferroni
deriving DecidableEq

/-- Combined statistic and combined p-value for one method. -/
noncomputable def combineP : CombMethod → List ℝ → ℝ × ℝ
  | .fisher, ps => (fisherStat ps, fisherP ps)
  | .bonferroni, ps => (ps.foldr min 1, bonferroniP ps)

/-- Fraction of bands whose individual significance flag is set. -/
def sigFraction (bs : List BandPairResult) : ℚ :=
  (bs.countP (fun b => b.significant) : ℚ) / (bs.length : ℚ)

/-- Terminal artifact of one analysis call. -/
structure CombinedResult where
  overall_causality : Prop
  test_statistic : ℝ
  combined_p_value : ℝ
  method : CombMethod
  band_results : List BandPairResult

/-- Modelled from the spec: the Combiner of the missing engine.  It
reduces the per-band p-values with the selected method and classifies
overall causality by the two-part policy: combined p-value strictly
below alpha and fraction of individually significant bands at least
gamma. -/
noncomputable def combineBands (method : CombMethod) (alpha gamma : ℚ)
    (bs : List BandPairResult) : CombinedResult :=
  let ps : List ℝ := bs.map (fun b => ((b.pValue : ℚ) : ℝ))
  let sp := combineP method ps
  { overall_causality := sp.2 < (alpha : ℝ) ∧ gamma ≤ sigFraction bs,
    test_statistic := sp.1, combined_p_value := sp.2,
    method := method, band_results := bs }

/-- Analysis configuration validated once at entry. -/
structure AnalysisConfig where
  fs : ℚ
  maxLag : ℕ
  alpha : ℚ
  gamma : ℚ
  method : CombMethod
  bands : List (String × FrequencyBand)
  adaptiveLag : Bool

/-- Modelled from the spec: the entry operation analyze of the missing
engine.  The numerical per-band pipeline (decompose, align, test) is
abstracted as the function argument bandCompute; the orchestrator maps
it over the configured bands and the Combiner produces the overall
verdict.  The whole call is a pure function of its arguments. -/
noncomputable def analyze
    (bandCompute : FrequencyBand → List ℚ → List ℚ → Except BandError BandStats)
    (cfg : AnalysisConfig) (driver target : List ℚ) : CombinedResult :=
  combineBands cfg.method cfg.alpha cfg.gamma
    (orchestrate cfg.alpha
      (cfg.bands.map (fun nb => (nb.1, bandCompute nb.2 driver target))))

/-- Row of the band_results table, one per band. -/
def bandRow (b : BandPairResult) : List (String × RVal) :=
  [("interval", .str b.interval),
   ("causality", .bool b.causality),
   ("opt_lag", .nat b.optLag),
   ("BIC_diff_ratio", .rat b.bicRatio),
   ("p_value", .rat b.pValue),
   ("significant_individual", .bool b.significant)]

/-- Modelled from the spec: the result dictionary shape the multi-band
entry points return to the excluded reporting layer. -/
noncomputable def resultDict (r : CombinedResult) : List (String × RVal) :=
  [("overall_causality", .prop r.overall_causality),
   ("combined_p_value", .real r.combined_p_value),
   ("test_statistic", .real r.test_statistic),
   ("band_results", .rows (r.band_results.map bandRow))]

/-- Modelled from the spec: the multi-band entry point mbvl_granger of
the missing engine. -/
noncomputable def mbvl_granger
    (bandCompute : FrequencyBand → List ℚ → List ℚ → Except BandError BandStats)
    (cfg : AnalysisConfig) (X Y : List ℚ) : List (String × RVal) :=
  resultDict (analyze bandCompute cfg X Y)

/-- Modelled from the spec: quick_mbvlgranger, the one-liner wrapper of
the missing engine that calls mbvl_granger with the documented defaults
alpha 0.05, gamma 0.5 and the Fisher combination method. -/
noncomputable def quick_mbvlgranger
    (bandCompute : FrequencyBand → List ℚ → List ℚ → Except BandError BandStats)
    (fs : ℚ) (maxLag : ℕ) (bands : List (String × FrequencyBand))
    (x y : List ℚ) : List (String × RVal) :=
  mbvl_granger bandCompute ⟨fs, maxLag, 1 / 20, 1 / 2, .fisher, bands, false⟩ x y

theorem minCostUpTo_attained (cost : ℕ → ℚ) (n : ℕ) :
    ∃ τ, τ ≤ n ∧ minCostUpTo cost n = cost τ := by
  induction n with
  | zero => exact ⟨0, le_refl 0, rfl⟩
  | succ k ih =>
    rcases ih with ⟨τ, hτ, he⟩
    by_cases hc : minCostUpTo cost k ≤ cost (k + 1)
    · refine ⟨τ, Nat.le_succ_of_le hτ, ?_⟩
      simp only [minCostUpTo]
      rw [min_eq_left hc, he]
    · refine ⟨k + 1, le_refl _, ?_⟩
      simp only [minCostUpTo]
      rw [min_eq_right (le_of_not_le hc)]

theorem scanLag_le_sat (P : ℕ → Bool) :
    ∀ fuel start m, start ≤ m → m ≤ start + fuel → P m = true →
      scanLag P fuel start ≤ m ∧ P (scanLag P fuel start) = true := by
  intro fuel
  induction fuel with
  | zero =>
    intro start m h1 h2 hm
    have hsm : m = start := le_antisymm (by simpa using h2) h1
    subst hsm
    exact ⟨le_refl _, by simpa [scanLag] using hm⟩
  | succ k ih =>
    intro start m h1 h2 hm
    by_cases hp : P start
    · constructor
      · simpa [scanLag, hp] using h1
      · simp [scanLag, hp]
    · have hne : start ≠ m := by
        intro he
        rw [he] at hp
        exact hp hm
      have h1' : start + 1 ≤ m := Nat.lt_of_le_of_ne h1 hne
      have h2' : m ≤ start + 1 + k := by omega
      have hrec := ih (start + 1) m h1' h2' hm
      constructor
      · simpa [scanLag, hp] using hrec.1
      · simpa [scanLag, hp] using hrec.2

/-- C6: the Band Decomposer accepts a band whose upper edge equals the
Nyquist frequency fs / 2 exactly (given a valid lower edge), raises
InvalidBandError for every band whose upper edge is strictly greater
than fs / 2, and raises InvalidBandError for every band with
low >= high. -/
theorem validateBand_nyquist (fs : ℚ) (b : FrequencyBand) :
    (b.low < fs / 2 → validateBand fs ⟨b.low, fs / 2⟩ = .ok ()) ∧
    (fs / 2 < b.high → validateBand fs b = .error .invalidBand) ∧
    (b.high ≤ b.low → validateBand fs b = .error .invalidBand) := by
  refine ⟨?_, ?_, ?_⟩
  · intro h
    simp [validateBand, not_le.mpr h]
  · intro h
    by_cases h2 : b.high ≤ b.low
    · simp [validateBand, h2]
    · simp [validateBand, h2, h]
  · intro h
    simp [validateBand, h]

theorem validateBand_nyquist_witness :
    validateBand 250 ⟨1, 250 / 2⟩ = .ok () ∧
    validateBand 250 ⟨1, 200⟩ = .error .invalidBand ∧
    validateBand 250 ⟨30, 20⟩ = .error .invalidBand :=
  ⟨(validateBand_nyquist 250 ⟨1, 125⟩).1 (by norm_num),
   (validateBand_nyquist 250 ⟨1, 200⟩).2.1 (by norm_num),
   (validateBand_nyquist 250 ⟨30, 20⟩).2.2 (by norm_num)⟩

/-- C8: on every successful run of the aligner the returned optimal lag
lies in [0, max_lag]; its cost is within the tolerance of the minimal
cost over all candidate lags; and among all candidate lags whose cost is
indistinguishable from the minimum within the tolerance, the smallest
one is the lag returned. -/
theorem findBestLag_spec (cost : ℕ → ℚ) (maxLag : ℕ) (tol : ℚ) (htol : 0 ≤ tol) :
    findBestLag cost maxLag tol ≤ maxLag ∧
    cost (findBestLag cost maxLag tol) ≤ minCostUpTo cost maxLag + tol ∧
    ∀ τ, cost τ ≤ minCostUpTo cost maxLag + tol → findBestLag cost maxLag tol ≤ τ := by
  obtain ⟨m, hm_le, hm_eq⟩ := minCostUpTo_attained cost maxLag
  have hPm : decide (cost m ≤ minCostUpTo cost maxLag + tol) = true := by
    rw [decide_eq_true_iff, ← hm_eq]
    linarith
  have main := scanLag_le_sat (fun τ => decide (cost τ ≤ minCostUpTo cost maxLag + tol))
    maxLag 0 m (Nat.zero_le _) (by simpa using hm_le) hPm
  have hres_le_m : findBestLag cost maxLag tol ≤ m := main.1
  have hres_sat : cost (findBestLag cost maxLag tol) ≤ minCostUpTo cost maxLag + tol := by
    have h2 := main.2
    rw [decide_eq_true_iff] at h2
    exact h2
  refine ⟨le_trans hres_le_m hm_le, hres_sat, ?_⟩
  intro τ hτ
  by_cases hcase : τ ≤ maxLag
  · have hPτ : decide (cost τ ≤ minCostUpTo cost maxLag + tol) = true := by
      rw [decide_eq_true_iff]
      exact hτ
    exact (scanLag_le_sat (fun τ => decide (cost τ ≤ minCostUpTo cost maxLag + tol))
      maxLag 0 τ (Nat.zero_le _) (by simpa using hcase) hPτ).1
  · exact le_trans (le_trans hres_le_m hm_le) (le_of_not_le hcase)

theorem findBestLag_spec_witness :
    (0 : ℚ) ≤ 1 ∧ findBestLag (fun τ => if τ = 2 then 0 else 5) 4 1 ≤ 4 :=
  ⟨by norm_num, (findBestLag_spec (fun τ => if τ = 2 then 0 else 5) 4 1 (by norm_num)).1⟩

/-- C2: on every pair and candidate lag on which the Causality Tester
succeeds, its causality decision is true exactly when the p-value is
strictly below alpha and the BIC difference ratio
(BIC_restricted - BIC_unrestricted) / |BIC_restricted| is strictly
positive. -/
theorem analyze_causality_decision (alpha : ℚ) (maxLag : ℕ) (tol : ℚ) (inp : VLInputs) :
    (analyze_causality alpha maxLag tol inp).lookup "XgCsY" = some (.bool true) ↔
      (inp.pVal < alpha ∧ 0 < (inp.bicR - inp.bicU) / |inp.bicR|) := by
  simp [analyze_causality, List.lookup]

/-- C10: every successful analyze_causality call returns a dictionary
with the keys XgCsY, p_val, BIC_diff_ratio and following_result, and the
following_result sub-dictionary carries the detected lag under the key
opt_delay. -/
theorem analyze_causality_result_keys (alpha : ℚ) (maxLag : ℕ) (tol : ℚ) (inp : VLInputs) :
    ((analyze_causality alpha maxLag tol inp).lookup "XgCsY").isSome = true ∧
    ((analyze_causality alpha maxLag tol inp).lookup "p_val").isSome = true ∧
    ((analyze_causality alpha maxLag tol inp).lookup "BIC_diff_ratio").isSome = true ∧
    (analyze_causality alpha maxLag tol inp).lookup "following_result" =
      some (.dict [("opt_delay", .nat (findBestLag inp.cost maxLag tol))]) :=
  ⟨rfl, rfl, rfl, rfl⟩

/-- C1: the overall causality flag of every returned CombinedResult is
true exactly when the combined p-value is strictly below alpha and the
fraction of individually significant bands is at least gamma; with two
bands of which exactly one is individually significant and gamma = 0.6,
the overall flag is false even when the combined p-value alone is below
alpha. -/
theorem combineBands_overall_policy (method : CombMethod) (alpha gamma : ℚ)
    (bs : List BandPairResult) :
    ((combineBands method alpha gamma bs).overall_causality ↔
      ((combineBands method alpha gamma bs).combined_p_value < (alpha : ℝ) ∧
        gamma ≤ sigFraction bs)) ∧
    (bs.length = 2 → bs.countP (fun b => b.significant) = 1 →
      (combineBands method alpha (3 / 5) bs).combined_p_value < (alpha : ℝ) →
      ¬ (combineBands method alpha (3 / 5) bs).overall_causality) := by
  constructor
  · exact Iff.rfl
  · intro hlen hcount hp hover
    simp only [combineBands] at hover
    have hfrac : ((3 : ℚ) / 5) ≤ sigFraction bs := hover.2
    simp only [sigFraction, hcount, hlen] at hfrac
    norm_num at hfrac

theorem combineBands_overall_policy_witness :
    (combineBands .bonferroni (1 / 20) (3 / 5)
        [⟨"low", true, 3, 1 / 2, 1 / 100, true, none⟩,
         ⟨"high", false, 0, 0, 9 / 10, false, none⟩]).combined_p_value <
      (((1 : ℚ) / 20 : ℚ) : ℝ) ∧
    ¬ (combineBands .bonferroni (1 / 20) (3 / 5)
        [⟨"low", true, 3, 1 / 2, 1 / 100, true, none⟩,
         ⟨"high", false, 0, 0, 9 / 10, false, none⟩]).overall_causality := by
  have hp : (combineBands .bonferroni (1 / 20) (3 / 5)
      [⟨"low", true, 3, 1 / 2, 1 / 100, true, none⟩,
       ⟨"high", false, 0, 0, 9 / 10, false, none⟩]).combined_p_value <
      (((1 : ℚ) / 20 : ℚ) : ℝ) := by
    simp only [combineBands, combineP, bonferroniP, List.map_cons, List.map_nil,
      List.foldr_cons, List.foldr_nil, List.length_cons, List.length_nil]
    push_cast
    rw [min_def, min_def, min_def]
    norm_num
  refine ⟨hp, ?_⟩
  exact (combineBands_overall_policy .bonferroni (1 / 20) (3 / 5)
      [⟨"low", true, 3, 1 / 2, 1 / 100, true, none⟩,
       ⟨"high", false, 0, 0, 9 / 10, false, none⟩]).2 rfl rfl hp

/-- C5: a band whose decomposition, alignment or model fit fails while
another band succeeds is recorded in the returned CombinedResult as a
per-band record with causality false, p-value 1.0 and a diagnostic
marker, and the analysis still returns an overall result covering every
configured band. -/
theorem orchestrate_failure_downgrade (method : CombMethod) (alpha gamma : ℚ)
    (bands : List (String × Except BandError BandStats)) (i : ℕ) (name : String)
    (e : BandError)
    (hfail : bands[i]? = some (name, Except.error e))
    (_hok : ∃ (j : ℕ) (nm : String) (s : BandStats), bands[j]? = some (nm, Except.ok s)) :
    (combineBands method alpha gamma (orchestrate alpha bands)).band_results[i]? =
      some (failedBandResult name e) ∧
    (failedBandResult name e).causality = false ∧
    (failedBandResult name e).pValue = 1 ∧
    (failedBandResult name e).diagnostic = some (errorTag e) ∧
    (combineBands method alpha gamma (orchestrate alpha bands)).band_results.length =
      bands.length := by
  refine ⟨?_, rfl, rfl, rfl, ?_⟩
  · show (orchestrate alpha bands)[i]? = some (failedBandResult name e)
    rw [orchestrate, List.getElem?_map, hfail]
    rfl
  · show (orchestrate alpha bands).length = bands.length
    rw [orchestrate, List.length_map]

theorem orchestrate_failure_downgrade_witness :
    (combineBands .fisher (1 / 20) (1 / 2)
        (orchestrate (1 / 20)
          [("good", Except.ok ⟨3, 1 / 2, 1 / 100⟩),
           ("bad", Except.error BandError.alignmentFailed)])).band_results[1]? =
      some (failedBandResult "bad" BandError.alignmentFailed) ∧
    (failedBandResult "bad" BandError.alignmentFailed).causality = false ∧
    (failedBandResult "bad" BandError.alignmentFailed).pValue = 1 ∧
    (failedBandResult "bad" BandError.alignmentFailed).diagnostic =
      some (errorTag BandError.alignmentFailed) ∧
    (combineBands .fisher (1 / 20) (1 / 2)
        (orchestrate (1 / 20)
          [("good", Except.ok ⟨3, 1 / 2, 1 / 100⟩),
           ("bad", Except.error BandError.alignmentFailed)])).band_results.length =
      ([("good", Except.ok ⟨3, 1 / 2, 1 / 100⟩),
        ("bad", Except.error BandError.alignmentFailed)] :
          List (String × Except BandError BandStats)).length :=
  orchestrate_failure_downgrade .fisher (1 / 20) (1 / 2)
    [("good", Except.ok ⟨3, 1 / 2, 1 / 100⟩),
     ("bad", Except.error BandError.alignmentFailed)] 1 "bad"
    BandError.alignmentFailed rfl ⟨0, "good", ⟨3, 1 / 2, 1 / 100⟩, rfl⟩

/-- C7: the entry operation is a deterministic function of its inputs;
two analyze calls with identical band pipeline, configuration and
signals return identical results, with no hidden randomness anywhere in
the modelled lag-search path. -/
theorem analyze_deterministic
    (bc1 bc2 : FrequencyBand → List ℚ → List ℚ → Except BandError BandStats)
    (cfg1 cfg2 : AnalysisConfig) (x1 x2 y1 y2 : List ℚ)
    (hbc : bc1 = bc2) (hcfg : cfg1 = cfg2) (hx : x1 = x2) (hy : y1 = y2) :
    analyze bc1 cfg1 x1 y1 = analyze bc2 cfg2 x2 y2 := by
  subst hbc hcfg hx hy
  rfl

theorem analyze_deterministic_witness :
    analyze (fun _ _ _ => .error .alignmentFailed)
        ⟨250, 30, 1 / 20, 1 / 2, .fisher, [], false⟩ [] [] =
      analyze (fun _ _ _ => .error .alignmentFailed)
        ⟨250, 30, 1 / 20, 1 / 2, .fisher, [], false⟩ [] [] :=
  analyze_deterministic _ _ _ _ _ _ _ _ rfl rfl rfl rfl

theorem resultDict_keys (r : CombinedResult) :
    ((resultDict r).lookup "overall_causality").isSome = true ∧
    ((resultDict r).lookup "combined_p_value").isSome = true ∧
    ((resultDict r).lookup "test_statistic").isSome = true ∧
    ∃ rows, (resultDict r).lookup "band_results" = some (.rows rows) ∧
      ∀ i : Fin rows.length, ((rows.get i).lookup "interval").isSome = true ∧
        ((rows.get i).lookup "significant_individual").isSome = true := by
  refine ⟨rfl, rfl, rfl, r.band_results.map bandRow, rfl, ?_⟩
  rintro ⟨n, hn⟩
  obtain ⟨b, hb, he⟩ :=
    List.mem_map.mp (List.get_mem (r.band_results.map bandRow) n hn)
  rw [← he]
  exact ⟨rfl, rfl⟩

/-- C9: every successful call of the multi-band entry points returns a
mapping with the keys overall_causality, combined_p_value and
test_statistic, and a band_results collection whose rows each carry an
interval field and a significant_individual flag; this holds for
mbvl_granger and for quick_mbvlgranger alike. -/
theorem mbvl_granger_result_keys
    (bc : FrequencyBand → List ℚ → List ℚ → Except BandError BandStats)
    (cfg : AnalysisConfig) (fs : ℚ) (maxLag : ℕ)
    (bands : List (String × FrequencyBand)) (x y : List ℚ) :
    (((mbvl_granger bc cfg x y).lookup "overall_causality").isSome = true ∧
     ((mbvl_granger bc cfg x y).lookup "combined_p_value").isSome = true ∧
     ((mbvl_granger bc cfg x y).lookup "test_statistic").isSome = true ∧
     ∃ rows, (mbvl_granger bc cfg x y).lookup "band_results" = some (.rows rows) ∧
       ∀ i : Fin rows.length, ((rows.get i).lookup "interval").isSome = true ∧
         ((rows.get i).lookup "significant_individual").isSome = true) ∧
    (((quick_mbvlgranger bc fs maxLag bands x y).lookup "overall_causality").isSome = true ∧
     ((quick_mbvlgranger bc fs maxLag bands x y).lookup "combined_p_value").isSome = true ∧
     ((quick_mbvlgranger bc fs maxLag bands x y).lookup "test_statistic").isSome = true ∧
     ∃ rows, (quick_mbvlgranger bc fs maxLag bands x y).lookup "band_results" =
         some (.rows rows) ∧
       ∀ i : Fin rows.length, ((rows.get i).lookup "interval").isSome = true ∧
         ((rows.get i).lookup "significant_individual").isSome = true) :=
  ⟨resultDict_keys (analyze bc cfg x y),
   resultDict_keys (analyze bc ⟨fs, maxLag, 1 / 20, 1 / 2, .fisher, bands, false⟩ x y)⟩

theorem sum_log_nonpos :
    ∀ ps : List ℝ, (∀ p ∈ ps, 0 < p ∧ p ≤ 1) → (ps.map Real.log).sum ≤ 0 := by
  intro ps
  induction ps with
  | nil => intro _; simp
  | cons a l ih =>
    intro h
    simp only [List.map_cons, List.sum_cons]
    have ha := h a (List.mem_cons_self a l)
    have hla : Real.log a ≤ 0 := Real.log_nonpos (le_of_lt ha.1) ha.2
    have hl : (l.map Real.log).sum ≤ 0 := ih (fun p hp => h p (List.mem_cons_of_mem a hp))
    linarith

theorem exp_sum_log :
    ∀ ps : List ℝ, (∀ p ∈ ps, 0 < p) → Real.exp ((ps.map Real.log).sum) = ps.prod := by
  intro ps
  induction ps with
  | nil => intro _; simp
  | cons a l ih =>
    intro h
    simp only [List.map_cons, List.sum_cons, List.prod_cons]
    rw [Real.exp_add, Real.exp_log (h a (List.mem_cons_self a l)),
      ih (fun p hp => h p (List.mem_cons_of_mem a hp))]

/-- C3 counterexample: on the per-band p-values 0.1 and 1.0 the
Bonferroni combined p-value is 0.2 while the Fisher combined p-value is
0.1 * (1 + log 10), which is strictly larger, so the claimed ordering of
Bonferroni at or above Fisher fails on this band set. -/
theorem bonferroni_fisher_order_counterexample :
    bonferroniP [(1 : ℝ) / 10, 1] < fisherP [(1 : ℝ) / 10, 1] := by
  have hlog : (1 : ℝ) < Real.log 10 := by
    rw [← Real.log_exp 1]
    exact Real.log_lt_log (Real.exp_pos 1) (lt_trans Real.exp_one_lt_d9 (by norm_num))
  have hb : bonferroniP [(1 : ℝ) / 10, 1] = 1 / 5 := by
    simp only [bonferroniP, List.length_cons, List.length_nil, List.foldr_cons,
      List.foldr_nil]
    rw [min_def, min_def, min_def]
    norm_num
  have hf : fisherP [(1 : ℝ) / 10, 1] = 1 / 10 * (1 + Real.log 10) := by
    simp only [fisherP, List.prod_cons, List.prod_nil, List.map_cons, List.map_nil,
      List.sum_cons, List.sum_nil, List.length_cons, List.length_nil, Real.log_one,
      one_div, Real.log_inv]
    rw [Finset.sum_range_succ, Finset.sum_range_succ, Finset.sum_range_zero]
    norm_num
  rw [hb, hf]
  nlinarith [hlog]

/-- C3 amended: for every band set of per-band p-values lying in the
interval (0, 1] the Fisher combined p-value is at least 0; the
conservatism ordering of the Bonferroni combined p-value at or above the
Fisher combined p-value does not hold in general. -/
theorem fisherP_nonneg (ps : List ℝ) (h : ∀ p ∈ ps, 0 < p ∧ p ≤ 1) :
    0 ≤ fisherP ps := by
  have hprod : 0 ≤ ps.prod :=
    le_of_lt (List.prod_pos (fun p hp => (h p hp).1))
  have hS : (ps.map Real.log).sum ≤ 0 := sum_log_nonpos ps h
  refine mul_nonneg hprod (Finset.sum_nonneg ?_)
  intro k _
  exact div_nonneg (pow_nonneg (by linarith) k) (Nat.cast_nonneg _)

theorem fisherP_nonneg_witness :
    (∀ p ∈ [(1 : ℝ) / 2], 0 < p ∧ p ≤ 1) ∧ 0 ≤ fisherP [(1 : ℝ) / 2] :=
  ⟨by norm_num, fisherP_nonneg [(1 : ℝ) / 2] (by norm_num)⟩

/-- C4: under the Fisher combination method the combined statistic is
-2 times the sum of the natural logarithms of the usable per-band
p-values, and the combined p-value equals the survival function of the
chi squared distribution with 2 * N degrees of freedom evaluated at that
statistic. -/
theorem fisher_stat_and_pvalue (ps : List ℝ) (h : ∀ p ∈ ps, 0 < p) :
    fisherStat ps = -2 * (ps.map Real.log).sum ∧
    fisherP ps = chi2SFeven ps.length (fisherStat ps) := by
  refine ⟨rfl, ?_⟩
  have hhalf : fisherStat ps / 2 = -(ps.map Real.log).sum := by
    simp only [fisherStat]
    ring
  simp only [chi2SFeven, hhalf, neg_neg, exp_sum_log ps h, fisherP]

theorem fisher_stat_and_pvalue_witness :
    (∀ p ∈ [(1 : ℝ)], 0 < p) ∧
    (fisherStat [(1 : ℝ)] = -2 * (([(1 : ℝ)]).map Real.log).sum ∧
      fisherP [(1 : ℝ)] = chi2SFeven (List.length [(1 : ℝ)]) (fisherStat [(1 : ℝ)])) :=
  ⟨by norm_num, fisher_stat_and_pvalue [(1 : ℝ)] (by norm_num)⟩
